import Mathlib

/-!
Verification development for the command-output-hover extension.

The embedding models, from the repository's source:
  * `CommandExecutor` (sanitizeInput, buildCommand, and the close-handler
    dispatch of executeCommand),
  * `ConfigManager` (getConfig / validateConfig),
  * `HoverManager` (storeOutput, getOutputAtPosition, clearOutput,
    cleanupStaleData, onDocumentClosed).
Strings manipulated character-wise are modelled as `List Char`; JS string
replacement with a global single-character pattern becomes `replaceChar`,
and the global replacement of the literal placeholder token becomes
`substPlaceholder`.  Timestamps are `Int` (JS numbers used via `Date.now`
arithmetic and comparison).
-/

namespace CmdHover

/-- Shell kinds, from `ShellType` in configManager. -/
inductive ShellType where
  | bash
  | powershell
deriving DecidableEq

/-- Result of a command execution, from `CommandResult` in commandExecutor. -/
structure CommandResult where
  success : Bool
  output : String
  error : Option String
deriving DecidableEq

/-- JS `str.replace(/c/g, rep)` for a single-character pattern `c`:
every occurrence of `c` is replaced by `rep`, left to right, the
replacement not rescanned. -/
def replaceChar (c : Char) (rep : List Char) : List Char → List Char
  | [] => []
  | x :: s => (if x = c then rep else [x]) ++ replaceChar c rep s

/-- `CommandExecutor.sanitizeInput`: the five chained `replace` calls of the
source, in source order (backslash first, then double quote, single quote,
backtick, dollar). -/
def escBackslash (s : List Char) : List Char := replaceChar '\\' ['\\', '\\'] s

/-- Second `replace` of `sanitizeInput`: double quote gains a backslash. -/
def escDquote (s : List Char) : List Char := replaceChar '\x22' ['\\', '\x22'] s

/-- Third `replace` of `sanitizeInput`: single quote gains a backslash. -/
def escSquote (s : List Char) : List Char := replaceChar '\x27' ['\\', '\x27'] s

/-- Fourth `replace` of `sanitizeInput`: backtick gains a backslash. -/
def escBacktick (s : List Char) : List Char := replaceChar '\x60' ['\\', '\x60'] s

/-- Fifth `replace` of `sanitizeInput`: dollar gains a backslash. -/
def escDollar (s : List Char) : List Char := replaceChar '$' ['\\', '$'] s

/-- `CommandExecutor.sanitizeInput`, the chain of the five replaces. -/
def sanitizeInput (s : List Char) : List Char :=
  escDollar (escBacktick (escSquote (escDquote (escBackslash s))))

/-- Per-character escaping map: the five special characters gain a leading
backslash (the backslash itself is doubled), all others pass through. -/
def escChar (c : Char) : List Char :=
  if c = '\\' ∨ c = '\x22' ∨ c = '\x27' ∨ c = '\x60' ∨ c = '$' then ['\\', c]
  else [c]

/-- Character-wise application of `escChar` over a whole string. -/
def specEsc : List Char → List Char
  | [] => []
  | c :: s => escChar c ++ specEsc s

/-- The placeholder token of command templates. -/
def placeholder : List Char :=
  ['\x7b', '\x7b', 'i', 'n', 'p', 'u', 't', '\x7d', '\x7d']

/-- JS `template.replace(placeholderRegex_g, rep)`: every occurrence of the
9-character placeholder token is replaced by `rep`, scanning left to right,
matches non-overlapping, and the replacement text is not rescanned. -/
def substPlaceholder (rep : List Char) (s : List Char) : List Char :=
  match s with
  | [] => []
  | c :: rest =>
    if (c :: rest).take 9 = placeholder then
      rep ++ substPlaceholder rep (rest.drop 8)
    else
      c :: substPlaceholder rep rest
termination_by s.length
decreasing_by
  · simp [List.length_drop]
    omega
  · simp

/-- JS `template.includes` of the placeholder token (also the regex test of
whether any occurrence exists): true iff the 9-character token occurs. -/
def containsPlaceholder : List Char → Bool
  | [] => false
  | c :: rest => ((c :: rest).take 9 = placeholder : Bool) || containsPlaceholder rest

/-- `CommandExecutor.buildCommand`: substitute the placeholder with the
sanitized input, then, for PowerShell only, double every single quote in
the fully substituted command. -/
def buildCommand (template sanitizedInput : List Char) (shellType : ShellType) : List Char :=
  let command := substPlaceholder sanitizedInput template
  match shellType with
  | ShellType.powershell => replaceChar '\x27' ['\x27', '\x27'] command
  | ShellType.bash => command

/-- The timeout error message of `executeCommand`
(template literal at source line 182). -/
def timeoutMsg (timeout : Int) : String :=
  "Command execution " ++ ("timed out after " ++ (toString timeout ++ "ms"))

/-- The synthesized nonzero-exit error message of `executeCommand`
(template literal at source line 188). -/
def exitCodeMsg (code : Int) : String :=
  "Command exited with code " ++ toString code

/-- The `close`-handler dispatch of `CommandExecutor.executeCommand`
(source lines 175-196): `timedOut` is the flag set by the timeout timer
before it killed the process, `code` the exit code, `stdout` / `stderr`
the accumulated streams.  JS falsiness of strings is emptiness. -/
def onClose (timedOut : Bool) (timeout : Int) (code : Int)
    (stdout stderr : String) : CommandResult :=
  if timedOut then
    { success := false, output := "", error := some (timeoutMsg timeout) }
  else if code ≠ 0 then
    { success := false, output := stdout,
      error := some (if stderr ≠ "" then stderr else exitCodeMsg code) }
  else
    { success := true,
      output := if stdout ≠ "" then stdout else stderr,
      error := none }

/-- `hay` contains `pat` as a substring. -/
def strContains (hay pat : String) : Prop :=
  ∃ pre post, hay = pre ++ pat ++ post

/-! ### ConfigManager -/

/-- The configuration record returned by `ConfigManager.getConfig`.  The
source casts the raw `shellType` setting string with `as ShellType`, a
no-op at runtime, so the field stays a string here. -/
structure ExtensionConfig where
  commandTemplate : String
  shellType : String
  timeout : Int
deriving DecidableEq

/-- Warning text for a template without the placeholder
(`validateConfig`, first check). -/
def warnTemplate : String :=
  "Command template does not contain \x7b\x7binput\x7d\x7d placeholder. Using default template."

/-- Warning text for an invalid shell type (`validateConfig`, second check). -/
def warnShell (shellType : String) : String :=
  "Invalid shell type: " ++ shellType ++ ". Using default (bash)."

/-- Warning text for an out-of-range timeout (`validateConfig`, third check). -/
def warnTimeout (timeout : Int) : String :=
  "Invalid timeout: " ++ toString timeout ++ "ms. Using default (30000ms)."

/-- `ConfigManager.validateConfig`: emits the warnings of its three checks,
in source order; it returns nothing and modifies nothing. -/
def validateConfig (commandTemplate shellType : String) (timeout : Int) : List String :=
  (if containsPlaceholder commandTemplate.data then [] else [warnTemplate])
    ++ (if shellType = "bash" ∨ shellType = "powershell" then [] else [warnShell shellType])
    ++ (if timeout ≤ 0 ∨ timeout > 300000 then [warnTimeout timeout] else [])

/-- `ConfigManager.getConfig`, as a function of the three raw setting
values read from the workspace: it calls `validateConfig` (returning the
emitted warnings) and then returns the three raw values unchanged. -/
def getConfig (commandTemplate shellType : String) (timeout : Int) :
    ExtensionConfig × List String :=
  ({ commandTemplate := commandTemplate, shellType := shellType, timeout := timeout },
    validateConfig commandTemplate shellType timeout)

/-! ### HoverManager -/

/-- `vscode.Position`: zero-based line and character. -/
structure Position where
  line : Nat
  character : Nat
deriving DecidableEq

/-- `vscode.Position.isBeforeOrEqual`. -/
def Position.isBeforeOrEqual (a b : Position) : Bool :=
  a.line < b.line || (a.line == b.line && a.character ≤ b.character)

/-- `vscode.Range`: start and end positions (`end` is a Lean keyword, the
field is named `stop`). -/
structure Range where
  start : Position
  stop : Position
deriving DecidableEq

/-- `vscode.Range.contains` applied to a position:
`start ≤ p ≤ end` in document order. -/
def Range.contains (r : Range) (p : Position) : Bool :=
  r.start.isBeforeOrEqual p && p.isBeforeOrEqual r.stop

/-- `vscode.Range.isEqual`: both endpoints match exactly. -/
def Range.isEqual (a b : Range) : Bool :=
  a.start == b.start && a.stop == b.stop

/-- A stored record, from `StoredOutput` in hoverManager. -/
structure StoredOutput where
  output : String
  range : Range
  timestamp : Int
  command : String
  input : String
deriving DecidableEq

/-- `HoverManager.MAX_AGE_MS` (one hour). -/
def MAX_AGE_MS : Int := 3600000

/-- The `hoverData` map of `HoverManager`, as an association list from
document URI to the document's ordered record list (JS `Map` preserves
insertion order; `Map.set` on a fresh key appends). -/
abbrev HoverData : Type := List (String × List StoredOutput)

/-- The record pushed by `storeOutput`. -/
def newRecord (range : Range) (output command input : String) (now : Int) : StoredOutput :=
  { output := output, range := range, timestamp := now,
    command := command, input := input }

/-- `HoverManager.storeOutput`: create the document entry if absent, drop
every stored record whose range `isEqual` the new range, then push the new
record at the end.  `now` is `Date.now()` at the call. -/
def storeOutput (hd : HoverData) (uri : String) (range : Range)
    (output command input : String) (now : Int) : HoverData :=
  if hd.any (fun e => e.1 == uri) then
    hd.map (fun e =>
      if e.1 == uri then
        (e.1, e.2.filter (fun st => !(st.range.isEqual range))
          ++ [newRecord range output command input now])
      else e)
  else
    hd ++ [(uri, [newRecord range output command input now])]

/-- `HoverManager.getOutputAtPosition`: look the document up; absent gives
`none`; otherwise scan the records in stored order and return the output
of the first whose range contains the position. -/
def getOutputAtPosition (hd : HoverData) (uri : String) (pos : Position) : Option String :=
  match hd.find? (fun e => e.1 == uri) with
  | none => none
  | some e => (e.2.find? (fun st => st.range.contains pos)).map (fun st => st.output)

/-- `HoverManager.clearOutput`: in the document's entry, drop every record
whose range `isEqual` the given range; delete the entry if that leaves it
empty. -/
def clearOutput (hd : HoverData) (uri : String) (range : Range) : HoverData :=
  hd.filterMap (fun e =>
    if e.1 == uri then
      let outs := e.2.filter (fun st => !(st.range.isEqual range))
      if outs.isEmpty then none else some (e.1, outs)
    else some e)

/-- `HoverManager.cleanupStaleData`: for every document keep exactly the
records with `now - timestamp < MAX_AGE_MS`; delete entries left empty. -/
def cleanupStaleData (hd : HoverData) (now : Int) : HoverData :=
  hd.filterMap (fun e =>
    let outs := e.2.filter (fun st => now - st.timestamp < MAX_AGE_MS)
    if outs.isEmpty then none else some (e.1, outs))

/-- `HoverManager.onDocumentClosed`: delete the document's entry. -/
def onDocumentClosed (hd : HoverData) (uri : String) : HoverData :=
  hd.filter (fun e => !(e.1 == uri))

/-- States of the store reachable from the initial empty map through the
four mutating operations. -/
inductive Reachable : HoverData → Prop where
  | init : Reachable []
  | store {hd} (uri range output command input now) :
      Reachable hd → Reachable (storeOutput hd uri range output command input now)
  | clear {hd} (uri range) :
      Reachable hd → Reachable (clearOutput hd uri range)
  | sweep {hd} (now) :
      Reachable hd → Reachable (cleanupStaleData hd now)
  | closed {hd} (uri) :
      Reachable hd → Reachable (onDocumentClosed hd uri)

/-- Every document entry present holds at least one record. -/
def allNonEmpty (hd : HoverData) : Bool :=
  hd.all (fun e => !e.2.isEmpty)

/-- The record list of a document, empty when the document is absent. -/
def docOutputs (hd : HoverData) (uri : String) : List StoredOutput :=
  match hd.find? (fun e => e.1 == uri) with
  | none => []
  | some e => e.2

/-! ### Helper lemmas -/

lemma substPlaceholder_nil (rep : List Char) : substPlaceholder rep [] = [] := by
  rw [substPlaceholder]

lemma substPlaceholder_cons_pos (rep : List Char) (c : Char) (rest : List Char)
    (h : (c :: rest).take 9 = placeholder) :
    substPlaceholder rep (c :: rest) = rep ++ substPlaceholder rep (rest.drop 8) := by
  rw [substPlaceholder, if_pos h]

lemma substPlaceholder_cons_neg (rep : List Char) (c : Char) (rest : List Char)
    (h : ¬ (c :: rest).take 9 = placeholder) :
    substPlaceholder rep (c :: rest) = c :: substPlaceholder rep rest := by
  rw [substPlaceholder, if_neg h]

/-- On a template free of the placeholder token, substitution changes
nothing. -/
lemma substPlaceholder_of_not_contains (rep : List Char) :
    ∀ s, containsPlaceholder s = false → substPlaceholder rep s = s := by
  intro s
  induction s using substPlaceholder.induct rep with
  | case1 =>
    intro _
    exact substPlaceholder_nil rep
  | case2 x s htake ih =>
    intro hc
    simp [containsPlaceholder, htake] at hc
  | case3 x s htake ih =>
    intro hc
    simp only [containsPlaceholder, Bool.or_eq_false_iff] at hc
    rw [substPlaceholder_cons_neg rep x s htake, ih hc.2]

lemma replaceChar_append (c : Char) (rep : List Char) :
    ∀ a b : List Char, replaceChar c rep (a ++ b) = replaceChar c rep a ++ replaceChar c rep b := by
  intro a b
  induction a with
  | nil => simp [replaceChar]
  | cons x a ih => simp [replaceChar, ih]

lemma sanitizeInput_append (a b : List Char) :
    sanitizeInput (a ++ b) = sanitizeInput a ++ sanitizeInput b := by
  simp [sanitizeInput, escDollar, escBacktick, escSquote, escDquote, escBackslash,
    replaceChar_append]

lemma sanitizeInput_single (x : Char) : sanitizeInput [x] = escChar x := by
  by_cases h1 : x = '\\'
  · subst h1; decide
  by_cases h2 : x = '\x22'
  · subst h2; decide
  by_cases h3 : x = '\x27'
  · subst h3; decide
  by_cases h4 : x = '\x60'
  · subst h4; decide
  by_cases h5 : x = '$'
  · subst h5; decide
  simp [sanitizeInput, escDollar, escBacktick, escSquote, escDquote, escBackslash,
    replaceChar, escChar, h1, h2, h3, h4, h5]

lemma string_append_empty (s : String) : s ++ "" = s := by
  simp

/-! ### Claim theorems: command executor and configuration -/

/-- C1: when the timeout timer fired before the process signalled
completion, the result of `executeCommand` has `success = false`, empty
output (the collected stdout/stderr are discarded), and an error message
containing "timed out after {timeout}ms"; the result is the same whatever
exit code and streams were also observed, so the timeout outcome wins over
the exit outcome. -/
theorem timeout_result_spec (timeout code : Int) (stdout stderr : String) :
    (onClose true timeout code stdout stderr).success = false ∧
    (onClose true timeout code stdout stderr).output = "" ∧
    (∃ e, (onClose true timeout code stdout stderr).error = some e ∧
      strContains e ("timed out after " ++ (toString timeout ++ "ms"))) ∧
    onClose true timeout code stdout stderr = onClose true timeout 0 "" "" := by
  refine ⟨rfl, rfl, ⟨timeoutMsg timeout, rfl, "Command execution ", "", ?_⟩, rfl⟩
  rw [string_append_empty]
  rfl

/-- C2: on normal completion without timeout, exit code 0 yields
`success = true` with output stdout when non-empty and stderr otherwise;
a nonzero exit code yields `success = false`, output stdout, and error
stderr when non-empty, otherwise a synthesized message containing the
exit code. -/
theorem exit_result_spec (timeout code : Int) (stdout stderr : String) :
    (onClose false timeout 0 stdout stderr
      = { success := true, output := if stdout ≠ "" then stdout else stderr,
          error := none }) ∧
    (code ≠ 0 →
      onClose false timeout code stdout stderr
        = { success := false, output := stdout,
            error := some (if stderr ≠ "" then stderr else exitCodeMsg code) } ∧
      (stderr = "" → ∃ e, (onClose false timeout code stdout stderr).error = some e ∧
        strContains e (toString code))) := by
  refine ⟨rfl, fun hc => ⟨by simp [onClose, hc], fun hs => ?_⟩⟩
  refine ⟨exitCodeMsg code, by simp [onClose, hc, hs], "Command exited with code ", "", ?_⟩
  rw [string_append_empty]
  rfl

/-- Witness for `exit_result_spec` at timeout 7, exit code 3, stdout "out",
stderr empty. -/
theorem exit_result_spec_witness :
    onClose false 7 3 ("out") ""
      = { success := false, output := "out", error := some (exitCodeMsg 3) } ∧
    ∃ e, (onClose false 7 3 ("out") "").error = some e ∧ strContains e (toString (3 : Int)) := by
  have h := (exit_result_spec 7 3 ("out") "").2 (by decide)
  refine ⟨?_, h.2 rfl⟩
  have h1 := h.1
  simpa using h1

/-- C3: `sanitizeInput` is the composition, in this fixed order, of
backslash doubling followed by backslash-prefixing of double quote, single
quote, backtick and dollar, each applied to the result of the earlier
substitutions; equivalently it escapes the five special characters
character-wise. -/
theorem sanitize_order_spec (s : List Char) :
    sanitizeInput s = escDollar (escBacktick (escSquote (escDquote (escBackslash s)))) ∧
    sanitizeInput s = specEsc s := by
  refine ⟨rfl, ?_⟩
  induction s with
  | nil => rfl
  | cons x s ih =>
    have : x :: s = [x] ++ s := rfl
    rw [this, sanitizeInput_append, sanitizeInput_single, ih]
    rfl

/-- C8 counterexample: the template consisting of the two characters
`e` and a single quote contains no placeholder, yet under the PowerShell
shell kind `buildCommand` doubles the quote, so the built command differs
from the template. -/
theorem build_identity_counterexample :
    containsPlaceholder ['e', '\x27'] = false ∧
    buildCommand ['e', '\x27'] ['y'] ShellType.powershell ≠ ['e', '\x27'] := by
  refine ⟨by decide, ?_⟩
  unfold buildCommand
  rw [substPlaceholder_of_not_contains _ _ (by decide)]
  decide

/-- C8 (amended): on a template with zero occurrences of the placeholder
token, placeholder substitution is the identity, so with the bash shell
kind the built command is the template unchanged; with the PowerShell
shell kind it is the template with every single quote doubled (which can
differ from the template). -/
theorem build_no_placeholder_spec (template input : List Char)
    (h : containsPlaceholder template = false) :
    buildCommand template input ShellType.bash = template ∧
    buildCommand template input ShellType.powershell
      = replaceChar '\x27' ['\x27', '\x27'] template := by
  unfold buildCommand
  rw [substPlaceholder_of_not_contains _ _ h]
  exact ⟨rfl, rfl⟩

/-- Witness for `build_no_placeholder_spec` on the placeholder-free
template "echo". -/
theorem build_no_placeholder_spec_witness :
    buildCommand ['e', 'c', 'h', 'o'] ['x'] ShellType.bash = ['e', 'c', 'h', 'o'] ∧
    buildCommand ['e', 'c', 'h', 'o'] ['x'] ShellType.powershell
      = replaceChar '\x27' ['\x27', '\x27'] ['e', 'c', 'h', 'o'] :=
  build_no_placeholder_spec ['e', 'c', 'h', 'o'] ['x'] (by decide)

/-- A configuration template string that does contain the placeholder. -/
def okTemplate : String := "echo \x7b\x7binput\x7d\x7d"

/-- An invalid shellType setting value. -/
def zshStr : String := "zsh"

/-- C7 (code behavior at the failing input): with shellType "zsh" and
timeout -5, `getConfig` emits the warnings announcing fallback to the
defaults, but the configuration it returns still carries timeout -5 (not
30000) and shellType "zsh" (not bash): validation only warns, it never
substitutes the default into the returned configuration. -/
theorem config_invalid_passthrough :
    (getConfig okTemplate zshStr (-5)).1.timeout = -5 ∧
    (getConfig okTemplate zshStr (-5)).1.timeout ≠ 30000 ∧
    (getConfig okTemplate zshStr (-5)).1.shellType = zshStr ∧
    warnTimeout (-5) ∈ (getConfig okTemplate zshStr (-5)).2 ∧
    warnShell zshStr ∈ (getConfig okTemplate zshStr (-5)).2 := by
  refine ⟨rfl, by decide, rfl, ?_, ?_⟩ <;> decide

/-! ### Store helper lemmas -/

lemma find?_first {α : Type} (p : α → Bool) :
    ∀ (l₁ : List α) (s : α) (l₂ : List α), (∀ x ∈ l₁, p x = false) → p s = true →
      (l₁ ++ s :: l₂).find? p = some s := by
  intro l₁ s l₂ h hs
  induction l₁ with
  | nil => simpa using List.find?_cons_of_pos l₂ hs
  | cons x l₁ ih =>
    have hx : ¬ p x = true := by
      simp [h x (List.mem_cons_self x l₁)]
    rw [List.cons_append, List.find?_cons_of_neg _ hx]
    exact ih fun y hy => h y (List.mem_cons_of_mem x hy)

/-- `Range.isEqual` is reflexive. -/
lemma Range.isEqual_self (r : Range) : r.isEqual r = true := by
  simp [Range.isEqual]

lemma find?_cons_eq {α : Type} (p : α → Bool) (a : α) (l : List α) :
    (a :: l).find? p = if p a then some a else l.find? p := by
  cases hpa : p a <;> simp [List.find?, hpa]

/-- The effect of `storeOutput` on the stored record list of the touched
document: exact-range duplicates are dropped and the new record lands at
the end. -/
lemma docOutputs_store (hd : HoverData) (uri : String) (range : Range)
    (output command input : String) (now : Int) :
    docOutputs (storeOutput hd uri range output command input now) uri
      = (docOutputs hd uri).filter (fun st => !(st.range.isEqual range))
        ++ [newRecord range output command input now] := by
  unfold storeOutput
  by_cases hAny : hd.any (fun e => e.1 == uri) = true
  · rw [if_pos hAny]
    induction hd with
    | nil => simp at hAny
    | cons e hd ih =>
      by_cases he : (e.1 == uri) = true
      · unfold docOutputs
        rw [List.map_cons, if_pos he, find?_cons_eq, find?_cons_eq]
        simp [he]
      · have hAny' : hd.any (fun e => e.1 == uri) = true := by
          simpa [List.any_cons, he] using hAny
        unfold docOutputs
        rw [List.map_cons, if_neg he, find?_cons_eq, find?_cons_eq]
        simp only [he, Bool.false_eq_true, if_neg (fun h => h)]
        exact ih hAny'
  · rw [if_neg hAny]
    rw [Bool.not_eq_true, List.any_eq_false] at hAny
    induction hd with
    | nil =>
      unfold docOutputs
      rw [List.nil_append, find?_cons_eq]
      simp [List.find?]
    | cons e hd ih =>
      have he : (e.1 == uri) = false := by
        have := hAny e (List.mem_cons_self e hd)
        simpa using this
      unfold docOutputs
      rw [List.cons_append, find?_cons_eq, find?_cons_eq]
      simp only [he, Bool.false_eq_true, if_neg (fun h => h)]
      exact ih fun x hx => hAny x (List.mem_cons_of_mem e hx)

/-- `storeOutput` leaves the entries of every other document untouched. -/
lemma storeOutput_frame (hd : HoverData) (uri : String) (range : Range)
    (output command input : String) (now : Int) :
    (storeOutput hd uri range output command input now).filter (fun e => !(e.1 == uri))
      = hd.filter (fun e => !(e.1 == uri)) := by
  unfold storeOutput
  by_cases hAny : hd.any (fun e => e.1 == uri) = true
  · rw [if_pos hAny]
    induction hd with
    | nil => rfl
    | cons e hd ih =>
      by_cases he : (e.1 == uri) = true
      · have heq : e.1 = uri := by simpa using he
        by_cases hAny' : hd.any (fun e => e.1 == uri) = true
        · simp only [List.map_cons, if_pos he, List.filter_cons]
          simpa [heq] using ih hAny'
        · rw [Bool.not_eq_true] at hAny'
          have hmap : hd.map (fun e =>
              if e.1 == uri then
                (e.1, e.2.filter (fun st => !(st.range.isEqual range))
                  ++ [newRecord range output command input now])
              else e) = hd.map id := by
            apply List.map_congr_left
            intro x hx
            have hx' : (x.1 == uri) = false := by
              have := (List.any_eq_false.mp hAny') x hx
              simpa using this
            simp [hx']
          rw [List.map_cons, if_pos he, hmap, List.map_id, List.filter_cons,
            List.filter_cons]
          simp [heq]
      · have hne : ¬ e.1 = uri := by simpa using he
        have hAny' : hd.any (fun e => e.1 == uri) = true := by
          simpa [List.any_cons, he] using hAny
        simp only [List.map_cons, if_neg he, List.filter_cons]
        simpa [hne] using ih hAny'
  · rw [if_neg hAny]
    rw [List.filter_append]
    simp

/-- `getOutputAtPosition` is the first containment hit in `docOutputs`. -/
lemma getOutput_eq_docOutputs (hd : HoverData) (uri : String) (pos : Position) :
    getOutputAtPosition hd uri pos
      = ((docOutputs hd uri).find? (fun st => st.range.contains pos)).map
          (fun st => st.output) := by
  unfold getOutputAtPosition docOutputs
  cases hd.find? (fun e => e.1 == uri) with
  | none => simp [List.find?]
  | some e => rfl

/-! ### Concrete test data -/

/-- A document URI used in concrete instances. -/
def uriU : String := "u"

/-- A wide range on line 0. -/
def rBig : Range := ⟨⟨0, 0⟩, ⟨0, 10⟩⟩

/-- A narrower range strictly inside `rBig`. -/
def rSmall : Range := ⟨⟨0, 2⟩, ⟨0, 5⟩⟩

/-- A range on line 1, disjoint from `rBig` and `rSmall`. -/
def rNew : Range := ⟨⟨1, 0⟩, ⟨1, 2⟩⟩

/-- Output strings used in concrete instances. -/
def outA : String := "A"

/-- A second output string, distinct from `outA`. -/
def outB : String := "B"

/-- A third output string. -/
def outB2 : String := "B2"

/-- Concrete command and input texts. -/
def cA : String := "ca"

/-- Concrete input text for the `outA` record. -/
def iA : String := "ia"

/-- Concrete command text for the later records. -/
def cB : String := "cb"

/-- Concrete input text for the later records. -/
def iB : String := "ib"

/-- A record spanning `rBig` with output `outA`, stored at time 0. -/
def sBig : StoredOutput :=
  { output := outA, range := rBig, timestamp := 0, command := cA, input := iA }

/-- A store holding only `sBig` under `uriU`. -/
def hdA : HoverData := [(uriU, [sBig])]

/-! ### Claim theorems: result store -/

/-- C10: `storeOutput` leaves every record of the same document whose span
is not exactly equal to the new span unchanged (merely overlapping or
different spans survive in order), and the entries of all other documents
are exactly as before the call. -/
theorem put_frame_spec (hd : HoverData) (uri : String) (range : Range)
    (output command input : String) (now : Int) :
    (storeOutput hd uri range output command input now).filter (fun e => !(e.1 == uri))
      = hd.filter (fun e => !(e.1 == uri)) ∧
    (docOutputs (storeOutput hd uri range output command input now) uri).filter
        (fun st => !(st.range.isEqual range))
      = (docOutputs hd uri).filter (fun st => !(st.range.isEqual range)) := by
  refine ⟨storeOutput_frame hd uri range output command input now, ?_⟩
  rw [docOutputs_store, List.filter_append, List.filter_filter]
  simp [Range.isEqual_self, newRecord, Bool.and_self]

/-- C5 (amended): `getOutputAtPosition` returns the first record in
insertion order whose range contains the position; it returns none when no
stored range of the document contains the position; and a lookup
immediately after `storeOutput` at a position inside the inserted range
returns the new record's output provided no earlier-inserted record of the
document also contains the position (first-inserted-wins otherwise). -/
theorem lookup_first_spec (hd : HoverData) (uri : String) :
    (∀ pos : Position, (∀ st ∈ docOutputs hd uri, st.range.contains pos = false) →
      getOutputAtPosition hd uri pos = none) ∧
    (∀ (pos : Position) (l₁ : List StoredOutput) (s : StoredOutput) (l₂ : List StoredOutput),
      docOutputs hd uri = l₁ ++ s :: l₂ →
      (∀ st ∈ l₁, st.range.contains pos = false) →
      s.range.contains pos = true →
      getOutputAtPosition hd uri pos = some s.output) ∧
    (∀ (pos : Position) (range : Range) (output command input : String) (now : Int),
      (∀ st ∈ docOutputs hd uri, st.range.contains pos = false) →
      range.contains pos = true →
      getOutputAtPosition (storeOutput hd uri range output command input now) uri pos
        = some output) := by
  refine ⟨?_, ?_, ?_⟩
  · intro pos h
    rw [getOutput_eq_docOutputs, List.find?_eq_none.mpr (by intro x hx; simp [h x hx])]
    rfl
  · intro pos l₁ s l₂ hsplit h1 hs
    rw [getOutput_eq_docOutputs, hsplit, find?_first _ l₁ s l₂ h1 hs]
    rfl
  · intro pos range output command input now h hr
    rw [getOutput_eq_docOutputs, docOutputs_store,
      find?_first _ _ (newRecord range output command input now) []
        (fun x hx => h x (List.mem_of_mem_filter hx)) hr]
    rfl

/-- Witness for `lookup_first_spec` on the concrete store `hdA`. -/
theorem lookup_first_spec_witness :
    getOutputAtPosition hdA uriU ⟨5, 5⟩ = none ∧
    getOutputAtPosition hdA uriU ⟨0, 1⟩ = some sBig.output ∧
    getOutputAtPosition (storeOutput hdA uriU rNew outB cB iB 9) uriU ⟨1, 1⟩ = some outB :=
  ⟨(lookup_first_spec hdA uriU).1 ⟨5, 5⟩ (by decide),
   (lookup_first_spec hdA uriU).2.1 ⟨0, 1⟩ [] sBig [] (by decide) (by decide) (by decide),
   (lookup_first_spec hdA uriU).2.2 ⟨1, 1⟩ rNew outB cB iB 9 (by decide) (by decide)⟩

/-- C5 counterexample: in a store already holding the record `sBig` whose
wide range covers position (0,3), a `storeOutput` of a new record with the
narrower range `rSmall` (which also contains (0,3)) followed by a lookup
at (0,3) returns the earlier record's output `outA`, not the newly
inserted `outB`: put-then-lookup inside the inserted span does not return
the new record for every store state. -/
theorem lookup_first_counterexample :
    rSmall.contains ⟨0, 3⟩ = true ∧
    getOutputAtPosition (storeOutput hdA uriU rSmall outB cB iB 1) uriU ⟨0, 3⟩
      = some outA ∧
    outA ≠ outB := by
  decide

/-- C4 (amended): `storeOutput` first removes every record of the document
whose span is exactly equal to the new span and then inserts the new
record, so two successive calls with the identical span leave exactly one
record for that span, namely the second; a lookup inside the span then
returns the second record's output provided no other previously stored
record of the document also contains the position (in particular when the
document held no records before). -/
theorem put_twice_spec (hd : HoverData) (uri : String) (range : Range)
    (o1 c1 i1 : String) (t1 : Int) (o2 c2 i2 : String) (t2 : Int) :
    ((docOutputs (storeOutput (storeOutput hd uri range o1 c1 i1 t1) uri range o2 c2 i2 t2)
        uri).countP (fun st => st.range.isEqual range) = 1) ∧
    (∀ st ∈ docOutputs (storeOutput (storeOutput hd uri range o1 c1 i1 t1) uri range o2 c2 i2 t2)
        uri, st.range.isEqual range = true → st = newRecord range o2 c2 i2 t2) ∧
    (∀ pos : Position, range.contains pos = true →
      (∀ st ∈ docOutputs hd uri, st.range.contains pos = false) →
      getOutputAtPosition (storeOutput (storeOutput hd uri range o1 c1 i1 t1) uri range o2 c2 i2 t2)
        uri pos = some o2) := by
  have hdoc : docOutputs (storeOutput (storeOutput hd uri range o1 c1 i1 t1)
        uri range o2 c2 i2 t2) uri
      = (docOutputs hd uri).filter (fun st => !(st.range.isEqual range))
        ++ [newRecord range o2 c2 i2 t2] := by
    rw [docOutputs_store, docOutputs_store, List.filter_append, List.filter_filter]
    simp [newRecord, Range.isEqual_self, Bool.and_self]
  refine ⟨?_, ?_, ?_⟩
  · rw [hdoc, List.countP_append]
    have h0 : ((docOutputs hd uri).filter (fun st => !(st.range.isEqual range))).countP
        (fun st => st.range.isEqual range) = 0 := by
      rw [List.countP_eq_zero]
      intro a ha
      have := (List.mem_filter.mp ha).2
      simp at this
      simp [this]
    rw [h0]
    simp [newRecord, Range.isEqual_self]
  · rw [hdoc]
    intro st hst heq
    rcases List.mem_append.mp hst with hmem | hmem
    · have := (List.mem_filter.mp hmem).2
      simp [heq] at this
    · simpa using hmem
  · intro pos hr h
    rw [getOutput_eq_docOutputs, hdoc,
      find?_first _ _ (newRecord range o2 c2 i2 t2) []
        (fun x hx => h x (List.mem_of_mem_filter hx)) hr]
    rfl

/-- Witness for `put_twice_spec`: double insertion into the empty store. -/
theorem put_twice_spec_witness :
    ((docOutputs (storeOutput (storeOutput [] uriU rSmall outA cA iA 1) uriU rSmall outB cB iB 2)
        uriU).countP (fun st => st.range.isEqual rSmall) = 1) ∧
    newRecord rSmall outB cB iB 2 = newRecord rSmall outB cB iB 2 ∧
    getOutputAtPosition (storeOutput (storeOutput [] uriU rSmall outA cA iA 1) uriU rSmall outB cB iB 2)
      uriU ⟨0, 3⟩ = some outB :=
  ⟨(put_twice_spec [] uriU rSmall outA cA iA 1 outB cB iB 2).1,
   (put_twice_spec [] uriU rSmall outA cA iA 1 outB cB iB 2).2.1
     (newRecord rSmall outB cB iB 2) (by decide) (by decide),
   (put_twice_spec [] uriU rSmall outA cA iA 1 outB cB iB 2).2.2 ⟨0, 3⟩
     (by decide) (by decide)⟩

/-- C4 counterexample: starting from the store `hdA`, whose record `sBig`
covers position (0,4), putting twice with the identical narrower span
`rSmall` (also containing (0,4)) and then looking up at (0,4) returns the
earlier overlapping record's output `outA`, not the second inserted
record's `outB2`: the lookup clause of the claim fails for this store
state. -/
theorem put_twice_counterexample :
    rSmall.contains ⟨0, 4⟩ = true ∧
    getOutputAtPosition
        (storeOutput (storeOutput hdA uriU rSmall outB cB iB 1) uriU rSmall outB2 cB iB 2)
        uriU ⟨0, 4⟩ = some outA ∧
    outA ≠ outB2 := by
  decide

/-- A record with timestamp 0, used for the sweep boundary instances. -/
def sOld : StoredOutput :=
  { output := outA, range := rBig, timestamp := 0, command := cA, input := iA }

/-- C6 (amended): `cleanupStaleData now` retains exactly the records with
`now - createdAt < MAX_AGE_MS` (so a record is removed as soon as its age
reaches the maximum lifetime, not only when it strictly exceeds it),
deletes every document entry left with zero records, and in particular a
singleton record is removed at `now = createdAt + MAX_AGE_MS + 1` and
retained at `now = createdAt + MAX_AGE_MS - 1`. -/
theorem sweep_age_spec (hd : HoverData) (now : Int) :
    (∀ e ∈ cleanupStaleData hd now, e.2 ≠ [] ∧
      ∀ st ∈ e.2, now - st.timestamp < MAX_AGE_MS) ∧
    (∀ e ∈ hd, ∀ st ∈ e.2, now - st.timestamp < MAX_AGE_MS →
      ∃ e' ∈ cleanupStaleData hd now, e'.1 = e.1 ∧ st ∈ e'.2) ∧
    (∀ (uri : String) (st : StoredOutput),
      cleanupStaleData [(uri, [st])] (st.timestamp + MAX_AGE_MS + 1) = [] ∧
      cleanupStaleData [(uri, [st])] (st.timestamp + MAX_AGE_MS - 1) = [(uri, [st])]) := by
  refine ⟨?_, ?_, ?_⟩
  · intro e he
    unfold cleanupStaleData at he
    obtain ⟨a, ha, hfa⟩ := List.mem_filterMap.mp he
    dsimp only at hfa
    by_cases hemp : (a.2.filter (fun st => now - st.timestamp < MAX_AGE_MS)).isEmpty = true
    · rw [if_pos hemp] at hfa
      exact absurd hfa (by simp)
    · rw [if_neg hemp] at hfa
      obtain rfl : (a.1, a.2.filter (fun st => now - st.timestamp < MAX_AGE_MS)) = e := by
        simpa using hfa
      constructor
      · intro hnil
        apply hemp
        rw [show (a.2.filter (fun st => now - st.timestamp < MAX_AGE_MS)) = [] from hnil]
        rfl
      · intro st hst
        have := (List.mem_filter.mp hst).2
        simpa using this
  · intro e he st hst hage
    have hmem : st ∈ e.2.filter (fun st => now - st.timestamp < MAX_AGE_MS) :=
      List.mem_filter.mpr ⟨hst, by simpa using hage⟩
    refine ⟨(e.1, e.2.filter (fun st => now - st.timestamp < MAX_AGE_MS)),
      List.mem_filterMap.mpr ⟨e, he, ?_⟩, rfl, hmem⟩
    dsimp only
    rw [if_neg ?hne]
    case hne =>
      intro hemp
      rw [List.isEmpty_iff] at hemp
      rw [hemp] at hmem
      exact absurd hmem (List.not_mem_nil st)
  · intro uri st
    have key : ∀ (now : Int), cleanupStaleData [(uri, [st])] now
        = if now - st.timestamp < MAX_AGE_MS then [(uri, [st])] else [] := by
      intro now
      by_cases h : now - st.timestamp < MAX_AGE_MS
      · simp [cleanupStaleData, h]
      · simp [cleanupStaleData, h]
    rw [key, key, if_neg (by omega), if_pos (by omega)]
    exact ⟨rfl, rfl⟩

/-- Witness for `sweep_age_spec` on a singleton store. -/
theorem sweep_age_spec_witness :
    ((uriU, [sOld]).2 ≠ [] ∧ ∀ st ∈ (uriU, [sOld]).2, (1 : Int) - st.timestamp < MAX_AGE_MS) ∧
    (∃ e' ∈ cleanupStaleData [(uriU, [sOld])] 1, e'.1 = uriU ∧ sOld ∈ e'.2) ∧
    (cleanupStaleData [(uriU, [sOld])] (sOld.timestamp + MAX_AGE_MS + 1) = [] ∧
     cleanupStaleData [(uriU, [sOld])] (sOld.timestamp + MAX_AGE_MS - 1) = [(uriU, [sOld])]) :=
  ⟨(sweep_age_spec [(uriU, [sOld])] 1).1 (uriU, [sOld]) (by decide),
   (sweep_age_spec [(uriU, [sOld])] 1).2.1 (uriU, [sOld]) (by decide) sOld (by decide) (by decide),
   (sweep_age_spec [(uriU, [sOld])] 1).2.2 uriU sOld⟩

/-- C6 counterexample: at `now = createdAt + MAX_AGE_MS` the record's age
equals the maximum lifetime — it does not exceed it — yet
`cleanupStaleData` removes it (the code keeps only `age < MAX_AGE_MS`), so
the claim's strictly-greater removal criterion is wrong at the boundary. -/
theorem sweep_age_counterexample :
    (3600000 : Int) - sOld.timestamp ≤ MAX_AGE_MS ∧
    cleanupStaleData [(uriU, [sOld])] 3600000 = [] := by
  decide

/-! ### Nonempty-index invariant -/

lemma allNonEmpty_store (hd : HoverData) (uri : String) (range : Range)
    (output command input : String) (now : Int) (h : allNonEmpty hd = true) :
    allNonEmpty (storeOutput hd uri range output command input now) = true := by
  unfold storeOutput
  unfold allNonEmpty at h ⊢
  rw [List.all_eq_true] at h
  by_cases hAny : hd.any (fun e => e.1 == uri) = true
  · rw [if_pos hAny, List.all_eq_true]
    intro e' he'
    obtain ⟨a, ha, rfl⟩ := List.mem_map.mp he'
    by_cases hk : (a.1 == uri) = true
    · simp [hk]
    · simp only [hk]
      simpa using h a ha
  · rw [if_neg hAny, List.all_append]
    have h1 : (hd.all fun e => !e.2.isEmpty) = true := List.all_eq_true.mpr h
    rw [h1]
    simp

lemma allNonEmpty_filterMap (hd : HoverData)
    (f : String × List StoredOutput → Option (String × List StoredOutput))
    (h : allNonEmpty hd = true)
    (hf : ∀ e ∈ hd, (!e.2.isEmpty) = true → ∀ e', f e = some e' → (!e'.2.isEmpty) = true) :
    allNonEmpty (hd.filterMap f) = true := by
  unfold allNonEmpty at h ⊢
  rw [List.all_eq_true] at h ⊢
  intro e' he'
  obtain ⟨a, ha, hfa⟩ := List.mem_filterMap.mp he'
  exact hf a ha (h a ha) e' hfa

lemma allNonEmpty_clear (hd : HoverData) (uri : String) (range : Range)
    (h : allNonEmpty hd = true) :
    allNonEmpty (clearOutput hd uri range) = true := by
  unfold clearOutput
  apply allNonEmpty_filterMap hd _ h
  intro e _ hne e' hfe
  dsimp only at hfe
  by_cases hk : (e.1 == uri) = true
  · rw [if_pos hk] at hfe
    by_cases hemp : (e.2.filter (fun st => !(st.range.isEqual range))).isEmpty = true
    · rw [if_pos hemp] at hfe
      exact absurd hfe (by simp)
    · rw [if_neg hemp] at hfe
      obtain rfl : (e.1, e.2.filter (fun st => !(st.range.isEqual range))) = e' := by
        simpa using hfe
      simpa using hemp
  · rw [if_neg hk] at hfe
    obtain rfl : e = e' := by simpa using hfe
    exact hne

lemma allNonEmpty_sweep (hd : HoverData) (now : Int) (h : allNonEmpty hd = true) :
    allNonEmpty (cleanupStaleData hd now) = true := by
  unfold cleanupStaleData
  apply allNonEmpty_filterMap hd _ h
  intro e _ _ e' hfe
  dsimp only at hfe
  by_cases hemp : (e.2.filter (fun st => now - st.timestamp < MAX_AGE_MS)).isEmpty = true
  · rw [if_pos hemp] at hfe
    exact absurd hfe (by simp)
  · rw [if_neg hemp] at hfe
    obtain rfl : (e.1, e.2.filter (fun st => now - st.timestamp < MAX_AGE_MS)) = e' := by
      simpa using hfe
    simpa using hemp

lemma allNonEmpty_closed (hd : HoverData) (uri : String) (h : allNonEmpty hd = true) :
    allNonEmpty (onDocumentClosed hd uri) = true := by
  unfold onDocumentClosed allNonEmpty
  unfold allNonEmpty at h
  rw [List.all_eq_true] at h ⊢
  intro e he
  exact h e (List.mem_of_mem_filter he)

/-- C9: in every store state reachable from the empty store through
`storeOutput`, `clearOutput`, `cleanupStaleData` and `onDocumentClosed`,
every document key present maps to a collection with at least one record —
an index left with zero records is deleted, never retained empty. -/
theorem store_nonempty_invariant (hd : HoverData) (h : Reachable hd) :
    allNonEmpty hd = true := by
  induction h with
  | init => rfl
  | store uri range output command input now _ ih =>
    exact allNonEmpty_store _ uri range output command input now ih
  | clear uri range _ ih => exact allNonEmpty_clear _ uri range ih
  | sweep now _ ih => exact allNonEmpty_sweep _ now ih
  | closed uri _ ih => exact allNonEmpty_closed _ uri ih

/-- Witness for `store_nonempty_invariant` on a concrete reachable state:
a put into the empty store followed by a sweep. -/
theorem store_nonempty_invariant_witness :
    allNonEmpty (cleanupStaleData (storeOutput [] uriU rBig outA cA iA 0) 1) = true :=
  store_nonempty_invariant _
    (Reachable.sweep 1 (Reachable.store uriU rBig outA cA iA 0 Reachable.init))

end CmdHover
